import Mathlib

/-!
Verification development for the couscous-Crawler repository.

The crawler's shared state lives in a SQLite database behind a single
`Mutex<Connection>` (src/database.rs): every public `Database` method locks
the mutex for its whole body, so each method executes atomically with
respect to the others.  We embed that state shallowly:

* the `url_queue` table (id autoincrement, url UNIQUE, depth, status) as a
  `List Row` in rowid order;
* the `visited` table (url PRIMARY KEY) as a `List String`;
* the `emails` table (UNIQUE(email, source_url)) as a
  `List (String × String)` of (email, source_url) pairs.

`SELECT ... WHERE status = 'pending' LIMIT 1` carries no ORDER BY; SQLite
scans the table in rowid order, which the list order models.

The worker loop and `process_url` (src/crawler.rs) are embedded as step
functions over this state; external collaborators (URL parsing, HTTP
client construction, fetching, HTML extraction) are supplied by an
environment record, and the possibility that a SQLite call returns `Err`
is injected by the environment as well, matching the `unwrap_or(true)`
treatment at the call sites.
-/

inductive Status where
  | pending
  | processing
  | done
deriving DecidableEq

structure Row where
  url : String
  depth : Nat
  status : Status
deriving DecidableEq

structure DBState where
  queue : List Row
  visited : List String
  emails : List (String × String)
deriving DecidableEq

/-- Models `Database::insert_email`: `INSERT OR IGNORE INTO emails (email, source_url)`
with `UNIQUE(email, source_url)`; returns whether a row was inserted. -/
def insert_email (db : DBState) (email source_url : String) : DBState × Bool :=
  if (email, source_url) ∈ db.emails then (db, false)
  else ({ db with emails := db.emails ++ [(email, source_url)] }, true)

/-- Models `Database::queue_url`: `INSERT OR IGNORE INTO url_queue (url, depth, status)
VALUES (?, ?, 'pending')` with `url` UNIQUE; returns whether a row was inserted. -/
def queue_url (db : DBState) (u : String) (d : Nat) : DBState × Bool :=
  if db.queue.any (fun r => r.url == u) then (db, false)
  else ({ db with queue := db.queue ++ [⟨u, d, Status.pending⟩] }, true)

/-- The body of `Database::pop_url` on the queue table: select the first
pending row and set its status to processing, returning (url, depth). -/
def pop_row : List Row → List Row × Option (String × Nat)
  | [] => ([], none)
  | r :: rs =>
    if r.status = Status.pending then
      ({ r with status := Status.processing } :: rs, some (r.url, r.depth))
    else
      let p := pop_row rs
      (r :: p.1, p.2)

/-- Models `Database::pop_url`: the SELECT and the UPDATE happen under one
acquisition of the connection mutex, hence as one atomic step. -/
def pop_url (db : DBState) : DBState × Option (String × Nat) :=
  let p := pop_row db.queue
  ({ db with queue := p.1 }, p.2)

/-- Models `Database::complete_url`: `UPDATE url_queue SET status = 'done' WHERE url = ?`. -/
def complete_url (db : DBState) (u : String) : DBState :=
  { db with queue := db.queue.map (fun r => if r.url == u then { r with status := Status.done } else r) }

/-- Models `Database::is_visited`: `SELECT COUNT(*) FROM visited WHERE url = ?` > 0. -/
def is_visited (db : DBState) (u : String) : Bool :=
  db.visited.contains u

/-- Models `Database::mark_visited`: `INSERT OR IGNORE INTO visited (url)` with
`url` PRIMARY KEY. -/
def mark_visited (db : DBState) (u : String) : DBState :=
  if db.visited.contains u then db else { db with visited := db.visited ++ [u] }

/-- Models `Database::pending_count`. -/
def pending_count (db : DBState) : Nat :=
  db.queue.countP (fun r => decide (r.status = Status.pending))

/-- Models `Database::processing_count`. -/
def processing_count (db : DBState) : Nat :=
  db.queue.countP (fun r => decide (r.status = Status.processing))

/-- Models `Database::reset_processing`: `UPDATE url_queue SET status = 'pending'
WHERE status = 'processing'`, returning the number of rows changed. -/
def reset_processing (db : DBState) : DBState × Nat :=
  let q := db.queue.map
    (fun r => if r.status = Status.processing then { r with status := Status.pending } else r)
  ({ db with queue := q }, db.queue.countP (fun r => decide (r.status = Status.processing)))

/-- Models `Database::clear_queue`: `DELETE FROM url_queue; DELETE FROM visited`. -/
def clear_queue (db : DBState) : DBState :=
  { db with queue := [], visited := [] }

/-- The slice of `cli::Args` that the crawl logic reads. -/
structure Args where
  url : String
  depth : Nat
  stay_on_domain : Bool
deriving DecidableEq

/-- A parsed `url::Url` as the crawler observes it: its string form
(`to_string`) and its host (`host_str`, absent for host-less URLs). -/
structure UrlT where
  full : String
  host : Option String
deriving DecidableEq

/-- Models `str::ends_with` at character level: for valid UTF-8 strings the byte
suffix used by Rust coincides with the character suffix, since a leading
byte never occurs mid-character. -/
def ends_with (s post : String) : Bool :=
  post.data.isSuffixOf s.data

/-- Models `extractor::is_same_domain`: host equals the base domain or ends with
`"." + base_domain`; URLs without a host never match. -/
def is_same_domain (url : UrlT) (base_domain : String) : Bool :=
  match url.host with
  | some h => h == base_domain || ends_with h ("." ++ base_domain)
  | none => false

/-- Environment for one `process_url` call: outcomes of the external
collaborators (URL parsing, client construction, HTTP fetch, extraction)
and injected SQLite errors for the `is_visited` calls, whose results the
code consumes through `unwrap_or(true)`. -/
structure FetchEnv where
  visitedErr : String → Bool
  parseOk : Bool
  clientOk : Bool
  fetched : Option String
  emailsFound : List String
  linksFound : List UrlT

/-- The `is_visited` call as `process_url` consumes it:
`db.is_visited(u).unwrap_or(true)` — an `Err` from SQLite reads as `true`. -/
def visited_or_err (env : FetchEnv) (db : DBState) (u : String) : Bool :=
  if env.visitedErr u then true else is_visited db u

/-- The inlined depth gate of `process_url`:
`let should_follow_links = args.depth == 0 || depth < args.depth`. -/
def should_follow_links (args : Args) (depth : Nat) : Bool :=
  args.depth == 0 || depth < args.depth

/-- One iteration of the link loop in `process_url`: skip the link when
`stay_on_domain` is set and the domain differs; otherwise queue it at
`depth + 1` unless its visited check reads `true` (or errors). -/
def queue_link (db : DBState) (args : Args) (base_domain : String) (depth : Nat)
    (env : FetchEnv) (link : UrlT) : DBState :=
  if args.stay_on_domain && !is_same_domain link base_domain then db
  else
    let link_str := link.full
    if !visited_or_err env db link_str then (queue_url db link_str (depth + 1)).1 else db

/-- The email loop of `process_url`: insert each extracted email with the
page URL as source (insert errors only affect the printed counter). -/
def insert_emails (db : DBState) (url : String) (emails : List String) : DBState :=
  emails.foldl (fun d e => (insert_email d e url).1) db

/-- Models `crawler::process_url`, with the suspension points flattened: visited
check (erring reads as visited) and early return; `mark_visited`; early
returns on URL-parse failure, client-construction failure and fetch
failure; email inserts; then, when the depth gate passes, the link loop. -/
def process_url (db : DBState) (args : Args) (base_domain : String)
    (url : String) (depth : Nat) (env : FetchEnv) : DBState :=
  if visited_or_err env db url then db
  else
    let db1 := mark_visited db url
    if !env.parseOk then db1
    else if !env.clientOk then db1
    else
      match env.fetched with
      | none => db1
      | some _html =>
        let db2 := insert_emails db1 url env.emailsFound
        if should_follow_links args depth then
          env.linksFound.foldl (fun d l => queue_link d args base_domain depth env l) db2
        else db2

/-- Worker control state in `worker_loop`:  polling the queue, holding a
claimed task (between `pop_url` and `complete_url`), or exited. -/
inductive Phase where
  | polling
  | working (url : String) (depth : Nat)
  | exited
deriving DecidableEq

structure Worker where
  idle_count : Nat
  phase : Phase
deriving DecidableEq

/-- A polling step of `worker_loop`: `pop_url`; on `Some` the idle counter
resets and the worker holds the task; on `None` the idle counter rises and
the loop breaks once it exceeds 10. -/
def step_poll (db : DBState) (w : Worker) : DBState × Worker :=
  let p := pop_url db
  match p.2 with
  | some (u, d) => (p.1, { idle_count := 0, phase := Phase.working u d })
  | none =>
    let ic := w.idle_count + 1
    if ic > 10 then (p.1, { idle_count := ic, phase := Phase.exited })
    else (p.1, { idle_count := ic, phase := Phase.polling })

/-- The body of a `Some(task)` iteration after the claim:
`process_url(...)` then `let _ = db.complete_url(&url)`. -/
def step_work (db : DBState) (args : Args) (base_domain : String) (env : FetchEnv)
    (u : String) (d : Nat) : DBState :=
  complete_url (process_url db args base_domain u d env) u

/-- One scheduler-chosen step of a single worker. -/
def step_worker (args : Args) (base_domain : String) (env : FetchEnv)
    (db : DBState) (w : Worker) : DBState × Worker :=
  match w.phase with
  | Phase.polling => step_poll db w
  | Phase.working u d =>
    (step_work db args base_domain env u d, { idle_count := w.idle_count, phase := Phase.polling })
  | Phase.exited => (db, w)

/-- The worker pool with the shared database handle. -/
structure SysState where
  db : DBState
  workers : List Worker
deriving DecidableEq

/-- Let worker `i` take one step (out-of-range indices step nothing). -/
def sched_step (args : Args) (base_domain : String) (env : FetchEnv)
    (s : SysState) (i : Nat) : SysState :=
  match s.workers.get? i with
  | none => s
  | some w =>
    let r := step_worker args base_domain env s.db w
    { db := r.1, workers := s.workers.set i r.2 }

/-- Run an interleaving: the schedule names which worker steps next. -/
def run_sched (args : Args) (base_domain : String) (env : FetchEnv)
    (s : SysState) (sched : List Nat) : SysState :=
  sched.foldl (fun st i => sched_step args base_domain env st i) s

/-- Frontier operations for claim traces: `queue_url`, `pop_url`,
`complete_url` as issued by the workers (no reset in between). -/
inductive FOp where
  | enq (u : String) (d : Nat)
  | claim
  | complete (u : String)

/-- Run a sequence of frontier operations, collecting the tasks returned by
the successful claims. -/
def run_ops : DBState → List FOp → DBState × List (String × Nat)
  | db, [] => (db, [])
  | db, FOp.enq u d :: rest => run_ops (queue_url db u d).1 rest
  | db, FOp.claim :: rest =>
    match pop_url db with
    | (db2, none) => run_ops db2 rest
    | (db2, some t) =>
      let r := run_ops db2 rest
      (r.1, t :: r.2)
  | db, FOp.complete u :: rest => run_ops (complete_url db u) rest

/-- A URL already claimed: some row for it sits in the queue in a
non-pending state. -/
def claimed_guard (u : String) (db : DBState) : Prop :=
  ∃ r ∈ db.queue, r.url = u ∧ r.status ≠ Status.pending

/-!
Interleaving model for the visited check-then-act pair at the top of
`process_url`:

    if db.is_visited(url).unwrap_or(true) { return; }
    let _ = db.mark_visited(url);

`is_visited` and `mark_visited` each lock the connection mutex for their
own body only, so a worker's check and its mark are two separate atomic
steps, and steps of different workers may interleave between them.  A
worker is a tiny program: one check step recording what it observed, then
(only when it observed not-visited) one mark step.
-/

structure VWorker where
  observed : Option Bool
  marked : Bool
deriving DecidableEq

/-- One atomic step of a worker running the check-then-act pair on `u`:
first the `is_visited` call (recording its result), then — only if it
observed not-visited — the `mark_visited` call. -/
def vworker_step (db : DBState) (u : String) (w : VWorker) : DBState × VWorker :=
  match w.observed with
  | none => (db, { w with observed := some (is_visited db u) })
  | some false =>
    if w.marked then (db, w)
    else (mark_visited db u, { w with marked := true })
  | some true => (db, w)

/-- A worker proceeds past the guard (to fetch and extract) exactly when
its check observed not-visited. -/
def vproceeds (w : VWorker) : Prop :=
  w.observed = some false

/-- Two workers racing on the same URL over the shared database. -/
structure VSys where
  db : DBState
  wa : VWorker
  wb : VWorker
deriving DecidableEq

/-- Scheduler step: index 0 advances worker A, any other index worker B. -/
def vsys_step (u : String) (s : VSys) (i : Nat) : VSys :=
  if i = 0 then
    let r := vworker_step s.db u s.wa
    { s with db := r.1, wa := r.2 }
  else
    let r := vworker_step s.db u s.wb
    { s with db := r.1, wb := r.2 }

/-- Run an interleaving of the two workers' check/mark steps. -/
def vsys_run (u : String) (s : VSys) (sched : List Nat) : VSys :=
  sched.foldl (vsys_step u) s

/-! ### Helper lemmas about the frontier operations -/

theorem pop_row_map_url (l : List Row) : (pop_row l).1.map Row.url = l.map Row.url := by
  induction l with
  | nil => simp [pop_row]
  | cons r rs ih =>
    by_cases h : r.status = Status.pending <;> simp [pop_row, h, ih]

theorem pop_row_none_iff (l : List Row) :
    (pop_row l).2 = none ↔ ∀ r ∈ l, r.status ≠ Status.pending := by
  induction l with
  | nil => simp [pop_row]
  | cons r rs ih =>
    by_cases h : r.status = Status.pending <;> simp [pop_row, h, ih]

theorem pop_row_some_pending {l : List Row} {u : String} {d : Nat}
    (h : (pop_row l).2 = some (u, d)) :
    ∃ r ∈ l, r.url = u ∧ r.status = Status.pending := by
  induction l with
  | nil => simp [pop_row] at h
  | cons r rs ih =>
    by_cases hr : r.status = Status.pending
    · simp [pop_row, hr] at h
      exact ⟨r, List.mem_cons_self r rs, h.1, hr⟩
    · simp [pop_row, hr] at h
      obtain ⟨r', hmem, hu, hs⟩ := ih h
      exact ⟨r', List.mem_cons_of_mem r hmem, hu, hs⟩

theorem pop_row_some_processing {l : List Row} {u : String} {d : Nat}
    (h : (pop_row l).2 = some (u, d)) :
    ∃ r ∈ (pop_row l).1, r.url = u ∧ r.status = Status.processing := by
  induction l with
  | nil => simp [pop_row] at h
  | cons r rs ih =>
    by_cases hr : r.status = Status.pending
    · simp [pop_row, hr] at h ⊢
      exact Or.inl h.1
    · simp [pop_row, hr] at h ⊢
      obtain ⟨r', hmem, hu, hs⟩ := ih h
      exact Or.inr ⟨r', hmem, hu, hs⟩

theorem mem_pop_row_of_nonpending {l : List Row} {r : Row}
    (hmem : r ∈ l) (hs : r.status ≠ Status.pending) : r ∈ (pop_row l).1 := by
  induction l with
  | nil => simp at hmem
  | cons a rs ih =>
    by_cases ha : a.status = Status.pending
    · simp [pop_row, ha]
      rcases List.mem_cons.mp hmem with heq | htail
      · exact absurd (heq ▸ ha) hs
      · exact Or.inr htail
    · simp [pop_row, ha]
      rcases List.mem_cons.mp hmem with heq | htail
      · exact Or.inl heq
      · exact Or.inr (ih htail)

theorem pop_url_queue_eq (db : DBState) : (pop_url db).1.queue = (pop_row db.queue).1 := rfl

theorem pop_url_res_eq (db : DBState) : (pop_url db).2 = (pop_row db.queue).2 := rfl

theorem pop_url_map_url (db : DBState) :
    (pop_url db).1.queue.map Row.url = db.queue.map Row.url := by
  rw [pop_url_queue_eq, pop_row_map_url]

theorem complete_url_map_url (db : DBState) (u : String) :
    (complete_url db u).queue.map Row.url = db.queue.map Row.url := by
  unfold complete_url
  simp only [List.map_map]
  apply List.map_congr_left
  intro r _
  by_cases h : r.url = u <;> simp [h]

theorem queue_url_map_url (db : DBState) (u : String) (d : Nat) :
    ((queue_url db u d).1.queue.map Row.url = db.queue.map Row.url) ∨
    ((queue_url db u d).1.queue.map Row.url = db.queue.map Row.url ++ [u] ∧
      u ∉ db.queue.map Row.url) := by
  unfold queue_url
  by_cases h : db.queue.any (fun r => r.url == u)
  · simp [h]
  · right
    simp [h]
    simp only [List.any_eq_true, not_exists, not_and] at h
    intro r hr
    intro hu
    exact absurd (by simp [hu]) (h r hr)

theorem claimed_guard_queue_url {u : String} {db : DBState} (hg : claimed_guard u db)
    (u' : String) (d : Nat) : claimed_guard u (queue_url db u' d).1 := by
  obtain ⟨r, hmem, hu, hs⟩ := hg
  unfold queue_url
  by_cases h : db.queue.any (fun r => r.url == u')
  · simp [h]
    exact ⟨r, hmem, hu, hs⟩
  · simp [h]
    exact ⟨r, List.mem_append_left _ hmem, hu, hs⟩

theorem claimed_guard_pop_url {u : String} {db : DBState} (hg : claimed_guard u db) :
    claimed_guard u (pop_url db).1 := by
  obtain ⟨r, hmem, hu, hs⟩ := hg
  exact ⟨r, mem_pop_row_of_nonpending hmem hs, hu, hs⟩

theorem claimed_guard_complete_url {u : String} {db : DBState} (hg : claimed_guard u db)
    (u' : String) : claimed_guard u (complete_url db u') := by
  obtain ⟨r, hmem, hu, hs⟩ := hg
  unfold complete_url
  refine ⟨if r.url == u' then { r with status := Status.done } else r,
    List.mem_map_of_mem _ hmem, ?_, ?_⟩
  · have : (if r.url == u' then { r with status := Status.done } else r).url = r.url := by
      by_cases h : r.url = u' <;> simp [h]
    rw [this]; exact hu
  · by_cases h : r.url = u' <;> simp [h, hs]

theorem claimed_guard_after_pop {u : String} {d : Nat} {db : DBState}
    (h : (pop_url db).2 = some (u, d)) : claimed_guard u (pop_url db).1 := by
  rw [pop_url_res_eq] at h
  obtain ⟨r, hmem, hu, hs⟩ := pop_row_some_processing h
  exact ⟨r, hmem, hu, by simp [hs]⟩

theorem nodup_queue_url {db : DBState} (hnd : (db.queue.map Row.url).Nodup)
    (u : String) (d : Nat) : ((queue_url db u d).1.queue.map Row.url).Nodup := by
  rcases queue_url_map_url db u d with h | ⟨h, hni⟩
  · rw [h]; exact hnd
  · rw [h]
    simp [List.nodup_append, hnd, hni]

theorem nodup_pop_url {db : DBState} (hnd : (db.queue.map Row.url).Nodup) :
    ((pop_url db).1.queue.map Row.url).Nodup := by
  rw [pop_url_map_url]; exact hnd

theorem nodup_complete_url {db : DBState} (hnd : (db.queue.map Row.url).Nodup)
    (u : String) : ((complete_url db u).queue.map Row.url).Nodup := by
  rw [complete_url_map_url]; exact hnd

theorem pop_url_ne_of_guard {u : String} {db : DBState} (hg : claimed_guard u db)
    (hnd : (db.queue.map Row.url).Nodup) (d : Nat) : (pop_url db).2 ≠ some (u, d) := by
  intro hc
  rw [pop_url_res_eq] at hc
  obtain ⟨r1, h1mem, h1u, h1s⟩ := pop_row_some_pending hc
  obtain ⟨r2, h2mem, h2u, h2s⟩ := hg
  have : r1 = r2 :=
    List.inj_on_of_nodup_map hnd h1mem h2mem (by rw [h1u, h2u])
  exact h2s (this ▸ h1s)

theorem run_ops_not_mem_of_guard (ops : List FOp) :
    ∀ (db : DBState) (u : String), (db.queue.map Row.url).Nodup → claimed_guard u db →
      u ∉ (run_ops db ops).2.map Prod.fst := by
  induction ops with
  | nil => intro db u _ _; simp [run_ops]
  | cons op rest ih =>
    intro db u hnd hg
    cases op with
    | enq u' d =>
      simp only [run_ops]
      exact ih _ u (nodup_queue_url hnd u' d) (claimed_guard_queue_url hg u' d)
    | complete u' =>
      simp only [run_ops]
      exact ih _ u (nodup_complete_url hnd u') (claimed_guard_complete_url hg u')
    | claim =>
      rcases hx : pop_url db with ⟨db2, res⟩
      have hq : (pop_url db).1 = db2 := by rw [hx]
      have hnd2 : (db2.queue.map Row.url).Nodup := by
        rw [← hq]; exact nodup_pop_url hnd
      have hg2 : claimed_guard u db2 := by
        rw [← hq]; exact claimed_guard_pop_url hg
      cases res with
      | none =>
        simp only [run_ops, hx]
        exact ih db2 u hnd2 hg2
      | some t =>
        rcases t with ⟨u', d'⟩
        simp only [run_ops, hx, List.map_cons, List.mem_cons]
        push_neg
        constructor
        · intro heq
          have hres : (pop_url db).2 = some (u, d') := by rw [hx, heq]
          exact pop_url_ne_of_guard hg hnd d' hres
        · exact ih db2 u hnd2 hg2

theorem run_ops_claims_nodup (ops : List FOp) :
    ∀ db : DBState, (db.queue.map Row.url).Nodup →
      ((run_ops db ops).2.map Prod.fst).Nodup := by
  induction ops with
  | nil => intro db _; simp [run_ops]
  | cons op rest ih =>
    intro db hnd
    cases op with
    | enq u' d =>
      simp only [run_ops]
      exact ih _ (nodup_queue_url hnd u' d)
    | complete u' =>
      simp only [run_ops]
      exact ih _ (nodup_complete_url hnd u')
    | claim =>
      rcases hx : pop_url db with ⟨db2, res⟩
      have hq : (pop_url db).1 = db2 := by rw [hx]
      have hnd2 : (db2.queue.map Row.url).Nodup := by
        rw [← hq]; exact nodup_pop_url hnd
      cases res with
      | none =>
        simp only [run_ops, hx]
        exact ih db2 hnd2
      | some t =>
        rcases t with ⟨u', d'⟩
        have hg2 : claimed_guard u' db2 := by
          rw [← hq]; exact claimed_guard_after_pop (by rw [hx])
        simp only [run_ops, hx, List.map_cons]
        exact List.nodup_cons.mpr
          ⟨run_ops_not_mem_of_guard rest db2 u' hnd2 hg2, ih db2 hnd2⟩

/-! ### C1 — at-most-once claim -/

/-- C1: for every sequence of frontier operations (enqueue / claim /
complete, no intervening reset) starting from a queue whose URLs are
unique, no URL is ever returned by two different successful `pop_url`
claims — each successful claim takes a pending row and moves it to
processing, so an already-claimed URL is never handed out again — and a
claim returns `none` exactly when no pending task exists. -/
theorem C1_claim_at_most_once (ops : List FOp) (db : DBState)
    (hnd : (db.queue.map Row.url).Nodup) :
    ((run_ops db ops).2.map Prod.fst).Nodup ∧
      ((pop_url db).2 = none ↔ ∀ r ∈ db.queue, r.status ≠ Status.pending) :=
  ⟨run_ops_claims_nodup ops db hnd, by rw [pop_url_res_eq]; exact pop_row_none_iff db.queue⟩

theorem C1_claim_at_most_once_witness :
    (((⟨[⟨"a", 1, Status.pending⟩, ⟨"b", 2, Status.done⟩], [], []⟩ : DBState).queue.map
        Row.url).Nodup) ∧
    (((run_ops ⟨[⟨"a", 1, Status.pending⟩, ⟨"b", 2, Status.done⟩], [], []⟩
        [FOp.claim, FOp.enq "a" 5, FOp.enq "c" 2, FOp.claim, FOp.claim]).2.map
          Prod.fst).Nodup ∧
      ((pop_url ⟨[⟨"a", 1, Status.pending⟩, ⟨"b", 2, Status.done⟩], [], []⟩).2 = none ↔
        ∀ r ∈ (⟨[⟨"a", 1, Status.pending⟩, ⟨"b", 2, Status.done⟩], [], []⟩ : DBState).queue,
          r.status ≠ Status.pending)) :=
  ⟨by decide, C1_claim_at_most_once _ _ (by decide)⟩

/-! ### C2 — the visited check-then-act pair -/

theorem vsys_run_cons (u : String) (s : VSys) (i : Nat) (sched : List Nat) :
    vsys_run u s (i :: sched) = vsys_run u (vsys_step u s i) sched := rfl

theorem is_visited_mark_visited {db : DBState} {u : String}
    (h : is_visited db u = true) (u' : String) :
    is_visited (mark_visited db u') u = true := by
  unfold is_visited mark_visited at *
  simp only [List.elem_iff] at h ⊢
  by_cases hc : u' ∈ db.visited
  · simpa [hc] using h
  · simp [hc]
    exact Or.inl h

theorem vstep_db_visited {db : DBState} {u u' : String} {w : VWorker}
    (h : is_visited db u = true) : is_visited (vworker_step db u' w).1 u = true := by
  unfold vworker_step
  match hw : w.observed with
  | none => simpa using h
  | some true => simpa using h
  | some false =>
    by_cases hm : w.marked
    · simpa [hm] using h
    · simpa [hm] using is_visited_mark_visited h u'

theorem vsys_step_preserves (u : String) (s : VSys) (i : Nat)
    (hv : is_visited s.db u = true) (hb : s.wb.observed ≠ some false) :
    is_visited (vsys_step u s i).db u = true ∧
      (vsys_step u s i).wb.observed ≠ some false := by
  unfold vsys_step
  by_cases hi : i = 0
  · simp only [hi, if_pos rfl]
    exact ⟨vstep_db_visited hv, hb⟩
  · simp only [if_neg hi]
    unfold vworker_step
    match hw : s.wb.observed with
    | none =>
      refine ⟨by simpa using hv, ?_⟩
      simp [hv]
    | some true => exact ⟨by simpa using hv, by simp [hw]⟩
    | some false => exact absurd hw hb

/-- C2 counterexample: `is_visited` and `mark_visited` each take the
connection lock separately, so the check-then-act pair is not atomic.  In
the interleaving check-A, check-B, mark-A, mark-B on a fresh URL, both
workers observe not-visited and both proceed to fetch and extract —
refuting "at most one of them can observe not-visited and proceed". -/
theorem C2_pair_not_atomic_counterexample :
    vproceeds (vsys_run "https://a.test/p"
      ⟨⟨[], [], []⟩, ⟨none, false⟩, ⟨none, false⟩⟩ [0, 1, 0, 1]).wa ∧
    vproceeds (vsys_run "https://a.test/p"
      ⟨⟨[], [], []⟩, ⟨none, false⟩, ⟨none, false⟩⟩ [0, 1, 0, 1]).wb := by
  unfold vproceeds
  constructor <;> decide

/-- C2 (amended): only the individual visited operations are atomic, not
the pair.  Two workers racing on the same URL may both observe not-visited
and both proceed; what does hold is single-operation granularity: once the
URL is marked visited (for instance because the other worker's mark
completed before this worker's check ran), a worker whose check has not
yet observed not-visited can never proceed, under every subsequent
interleaving. -/
theorem C2_individual_check_atomicity (u : String) (s : VSys) (sched : List Nat)
    (hv : is_visited s.db u = true) (hb : s.wb.observed ≠ some false) :
    ¬ vproceeds (vsys_run u s sched).wb := by
  induction sched generalizing s with
  | nil => simpa [vsys_run, vproceeds] using hb
  | cons i rest ih =>
    rw [vsys_run_cons]
    obtain ⟨hv2, hb2⟩ := vsys_step_preserves u s i hv hb
    exact ih _ hv2 hb2

theorem C2_individual_check_atomicity_witness :
    (is_visited (⟨[], ["https://a.test/p"], []⟩ : DBState) "https://a.test/p" = true ∧
      (⟨(none : Option Bool), false⟩ : VWorker).observed ≠ some false) ∧
    ¬ vproceeds (vsys_run "https://a.test/p"
      ⟨⟨[], ["https://a.test/p"], []⟩, ⟨some false, true⟩, ⟨none, false⟩⟩ [1, 1]).wb :=
  ⟨⟨by decide, by decide⟩,
    C2_individual_check_atomicity "https://a.test/p"
      ⟨⟨[], ["https://a.test/p"], []⟩, ⟨some false, true⟩, ⟨none, false⟩⟩ [1, 1]
      (by decide) (by decide)⟩

/-! ### C3 — worker-loop exit condition -/

theorem pop_row_eq_self {l : List Row} (h : ∀ r ∈ l, r.status ≠ Status.pending) :
    pop_row l = (l, none) := by
  induction l with
  | nil => simp [pop_row]
  | cons r rs ih =>
    have hr : r.status ≠ Status.pending := h r (List.mem_cons_self r rs)
    have hrs := ih (fun x hx => h x (List.mem_cons_of_mem r hx))
    simp [pop_row, hr, hrs]

theorem pop_url_eq_none {db : DBState} (h : ∀ r ∈ db.queue, r.status ≠ Status.pending) :
    pop_url db = (db, none) := by
  unfold pop_url
  rw [pop_row_eq_self h]

/-- C3 counterexample: two workers, one pending seed task.  Worker 1
claims the task; worker 0 then finds the frontier empty on 11 consecutive
polls and exits its loop — while worker 1 still holds the claimed task
(one Processing row outstanding, whose processing may enqueue successors).
This refutes "no worker exits while another worker still holds a claimed
task", and with it "complete only when ... no Processing tasks are
outstanding": the loop consults neither `processing_count` nor any other
worker's state. -/
theorem C3_exit_while_processing_counterexample :
    ((run_sched ⟨"https://a.test/", 0, true⟩ "a.test"
        ⟨fun _ => false, true, true, none, [], []⟩
        ⟨⟨[⟨"https://a.test/", 1, Status.pending⟩], [], []⟩,
          [⟨0, Phase.polling⟩, ⟨0, Phase.polling⟩]⟩
        [1, 0, 0, 0, 0, 0, 0, 0, 0, 0, 0, 0]).workers.get? 0 =
      some ⟨11, Phase.exited⟩) ∧
    ((run_sched ⟨"https://a.test/", 0, true⟩ "a.test"
        ⟨fun _ => false, true, true, none, [], []⟩
        ⟨⟨[⟨"https://a.test/", 1, Status.pending⟩], [], []⟩,
          [⟨0, Phase.polling⟩, ⟨0, Phase.polling⟩]⟩
        [1, 0, 0, 0, 0, 0, 0, 0, 0, 0, 0, 0]).workers.get? 1 =
      some ⟨0, Phase.working "https://a.test/" 1⟩) ∧
    processing_count (run_sched ⟨"https://a.test/", 0, true⟩ "a.test"
        ⟨fun _ => false, true, true, none, [], []⟩
        ⟨⟨[⟨"https://a.test/", 1, Status.pending⟩], [], []⟩,
          [⟨0, Phase.polling⟩, ⟨0, Phase.polling⟩]⟩
        [1, 0, 0, 0, 0, 0, 0, 0, 0, 0, 0, 0]).db = 1 := by
  refine ⟨?_, ?_, ?_⟩ <;> decide

/-- C3 (amended): each worker's exit decision is purely local — when no
pending task exists, a polling step just increments that worker's idle
counter and exits its loop once the counter exceeds 10 (11 consecutive
empty polls, about 550 ms of waiting); no check of outstanding Processing
rows or of other workers is made, so a worker may exit while another
worker still holds a claimed task that may enqueue successors. -/
theorem C3_worker_exit_is_local (args : Args) (base_domain : String) (env : FetchEnv)
    (db : DBState) (ic : Nat)
    (hnp : ∀ r ∈ db.queue, r.status ≠ Status.pending) :
    step_worker args base_domain env db ⟨ic, Phase.polling⟩ =
      (db, if ic + 1 > 10 then ⟨ic + 1, Phase.exited⟩ else ⟨ic + 1, Phase.polling⟩) := by
  unfold step_worker step_poll
  rw [pop_url_eq_none hnp]
  by_cases h10 : ic + 1 > 10 <;> simp [h10]

theorem C3_worker_exit_is_local_witness :
    (∀ r ∈ (⟨[⟨"x", 1, Status.processing⟩], [], []⟩ : DBState).queue,
      r.status ≠ Status.pending) ∧
    (step_worker ⟨"https://a.test/", 0, true⟩ "a.test"
        ⟨fun _ => false, true, true, none, [], []⟩
        ⟨[⟨"x", 1, Status.processing⟩], [], []⟩ ⟨10, Phase.polling⟩ =
      (⟨[⟨"x", 1, Status.processing⟩], [], []⟩,
        if 10 + 1 > 10 then ⟨10 + 1, Phase.exited⟩ else ⟨10 + 1, Phase.polling⟩)) :=
  ⟨by decide,
    C3_worker_exit_is_local ⟨"https://a.test/", 0, true⟩ "a.test"
      ⟨fun _ => false, true, true, none, [], []⟩
      ⟨[⟨"x", 1, Status.processing⟩], [], []⟩ 10 (by decide)⟩

/-! ### C4 — depth gate -/

/-- C4 counterexample: with configured max depth m = 2, a link discovered
on a page of depth d = 1 (would-be link depth d+1 = 2) IS followed by the
code — the gate is `depth < args.depth`, i.e. 1 < 2 — and the concrete
`process_url` run enqueues it at depth 2, although the claim's rule
"followed only if d+1 < m" demands 2 < 2, which is false. -/
theorem C4_depth_gate_counterexample :
    (⟨"https://a.test/p2", 2, Status.pending⟩ : Row) ∈
      (process_url ⟨[], [], []⟩ ⟨"https://a.test/", 2, false⟩ "a.test"
        "https://a.test/" 1
        ⟨fun _ => false, true, true, some "", [],
          [⟨"https://a.test/p2", some "a.test"⟩]⟩).queue ∧
    ¬ (1 + 1 < 2) := by
  constructor <;> decide

/-- C4 (amended): if the configured max depth m is 0 the gate always
passes; otherwise links found on a page of depth d are followed iff
d < m — equivalently, iff the links' would-be depth d+1 is at most m (not:
strictly less than m). -/
theorem C4_depth_gate (args : Args) (d : Nat) :
    (args.depth = 0 → should_follow_links args d = true) ∧
    (args.depth ≠ 0 → (should_follow_links args d = true ↔ d + 1 ≤ args.depth)) := by
  unfold should_follow_links
  constructor
  · intro h; simp [h]
  · intro h
    have hb : (args.depth == 0) = false := by simpa using h
    rw [hb]
    simp
    omega

theorem C4_depth_gate_witness :
    ((2 : Nat) ≠ 0) ∧
      (should_follow_links ⟨"https://a.test/", 2, false⟩ 1 = true ↔ 1 + 1 ≤ 2) :=
  ⟨by decide, (C4_depth_gate ⟨"https://a.test/", 2, false⟩ 1).2 (by decide)⟩

/-! ### C5 — domain gate -/

/-- C5: with domain-scoping enabled, the link gate keeps a link iff
`is_same_domain` accepts it: the host must equal the base domain or end in
"." followed by the base domain, so `sub.example.com` passes while
`other.com`, the non-dot-anchored `example.com.evil.com`, and host-less
links are dropped; a dropped link leaves the database untouched, while an
accepted link proceeds to the visited check and is enqueued at depth+1
when unvisited. -/
theorem C5_domain_gate :
    (∀ (l : UrlT) (base : String), l.host = none → is_same_domain l base = false) ∧
    is_same_domain ⟨"https://sub.example.com/x", some "sub.example.com"⟩ "example.com" = true ∧
    is_same_domain ⟨"https://other.com/x", some "other.com"⟩ "example.com" = false ∧
    is_same_domain ⟨"https://example.com.evil.com/", some "example.com.evil.com"⟩
      "example.com" = false ∧
    (∀ (db : DBState) (args : Args) (base : String) (d : Nat) (env : FetchEnv) (l : UrlT),
      args.stay_on_domain = true → is_same_domain l base = false →
        queue_link db args base d env l = db) ∧
    (∀ (db : DBState) (args : Args) (base : String) (d : Nat) (env : FetchEnv) (l : UrlT),
      is_same_domain l base = true →
        queue_link db args base d env l =
          if !visited_or_err env db l.full then (queue_url db l.full (d + 1)).1 else db) := by
  refine ⟨?_, by decide, by decide, by decide, ?_, ?_⟩
  · intro l base h
    unfold is_same_domain
    rw [h]
  · intro db args base d env l hstay hdiff
    unfold queue_link
    simp [hstay, hdiff]
  · intro db args base d env l hsame
    unfold queue_link
    simp [hsame]

theorem C5_domain_gate_witness :
    ((⟨"https://a.test/", 0, true⟩ : Args).stay_on_domain = true ∧
      is_same_domain ⟨"https://other.com/x", some "other.com"⟩ "example.com" = false) ∧
    queue_link ⟨[], [], []⟩ ⟨"https://a.test/", 0, true⟩ "example.com" 1
      ⟨fun _ => false, true, true, some "", [], []⟩
      ⟨"https://other.com/x", some "other.com"⟩ = ⟨[], [], []⟩ :=
  ⟨⟨rfl, by decide⟩,
    C5_domain_gate.2.2.2.2.1 ⟨[], [], []⟩ ⟨"https://a.test/", 0, true⟩ "example.com" 1
      ⟨fun _ => false, true, true, some "", [], []⟩
      ⟨"https://other.com/x", some "other.com"⟩ rfl (by decide)⟩

/-! ### C6 — idempotent enqueue -/

/-- C6: `queue_url` inserts a pending row iff the URL is not already
present in the frontier in any state, reporting whether it inserted; after
`enqueue(u, d1); enqueue(u, d2)` exactly one row for `u` exists, and the
second call reports not-inserted and changes nothing. -/
theorem C6_enqueue_idempotent (db : DBState) (u : String) (d1 d2 : Nat)
    (hcount : db.queue.countP (fun r => r.url == u) ≤ 1) :
    ((queue_url db u d1).2 = true ↔ ¬ ∃ r ∈ db.queue, r.url = u) ∧
    ((queue_url db u d1).2 = true →
      (queue_url db u d1).1.queue = db.queue ++ [⟨u, d1, Status.pending⟩]) ∧
    ((queue_url db u d1).2 = false → (queue_url db u d1).1 = db) ∧
    ((queue_url db u d1).1.queue.countP (fun r => r.url == u) = 1) ∧
    (queue_url (queue_url db u d1).1 u d2).2 = false ∧
    (queue_url (queue_url db u d1).1 u d2).1 = (queue_url db u d1).1 := by
  by_cases hany : db.queue.any (fun r => r.url == u) = true
  · have hex : ∃ r ∈ db.queue, r.url = u := by
      simpa using hany
    have hpos : 0 < db.queue.countP (fun r => r.url == u) := by
      rw [List.countP_pos_iff]
      obtain ⟨r, hmem, hu⟩ := hex
      exact ⟨r, hmem, by simp [hu]⟩
    have hq1 : queue_url db u d1 = (db, false) := by
      unfold queue_url
      rw [if_pos hany]
    have hfst : (queue_url db u d1).1 = db := by rw [hq1]
    have hsnd : (queue_url db u d1).2 = false := by rw [hq1]
    refine ⟨?_, ?_, ?_, ?_, ?_, ?_⟩
    · rw [hsnd]
      exact ⟨fun h => absurd h (by simp), fun h => absurd hex h⟩
    · rw [hsnd]
      intro h
      exact absurd h (by simp)
    · intro _
      rw [hfst]
    · rw [hfst]
      omega
    · rw [hfst]
      unfold queue_url
      rw [if_pos hany]
    · rw [hfst]
      unfold queue_url
      rw [if_pos hany]
  · have hnone : ∀ r ∈ db.queue, r.url ≠ u := by
      intro r hmem
      simp only [List.any_eq_true, not_exists, not_and] at hany
      intro hu
      exact absurd (by simp [hu]) (hany r hmem)
    have hzero : db.queue.countP (fun r => r.url == u) = 0 := by
      rw [List.countP_eq_zero]
      intro r hmem
      simp [hnone r hmem]
    have hq1 : queue_url db u d1 =
        ({ db with queue := db.queue ++ [⟨u, d1, Status.pending⟩] }, true) := by
      unfold queue_url
      rw [if_neg hany]
    have hany2 : ((db.queue ++ [(⟨u, d1, Status.pending⟩ : Row)]).any
        (fun r => r.url == u)) = true := by
      simp
    have hq2 : queue_url ({ db with queue := db.queue ++ [⟨u, d1, Status.pending⟩] } :
        DBState) u d2 =
        ({ db with queue := db.queue ++ [⟨u, d1, Status.pending⟩] }, false) := by
      unfold queue_url
      rw [if_pos hany2]
    have hfst : (queue_url db u d1).1 =
        ({ db with queue := db.queue ++ [⟨u, d1, Status.pending⟩] } : DBState) := by
      rw [hq1]
    have hsnd : (queue_url db u d1).2 = true := by rw [hq1]
    refine ⟨?_, ?_, ?_, ?_, ?_, ?_⟩
    · rw [hsnd]
      simp only [true_iff]
      rintro ⟨r, hmem, hu⟩
      exact hnone r hmem hu
    · intro _
      rw [hfst]
    · rw [hsnd]
      intro h
      exact absurd h (by simp)
    · rw [hfst]
      show (db.queue ++ [(⟨u, d1, Status.pending⟩ : Row)]).countP (fun r => r.url == u) = 1
      rw [List.countP_append, hzero]
      simp
    · rw [hfst, hq2]
    · rw [hfst, hq2]

theorem C6_enqueue_idempotent_witness :
    ((⟨[⟨"a", 1, Status.pending⟩], [], []⟩ : DBState).queue.countP
        (fun r => r.url == "b") ≤ 1) ∧
    (((queue_url ⟨[⟨"a", 1, Status.pending⟩], [], []⟩ "b" 3).2 = true ↔
        ¬ ∃ r ∈ (⟨[⟨"a", 1, Status.pending⟩], [], []⟩ : DBState).queue, r.url = "b") ∧
      ((queue_url ⟨[⟨"a", 1, Status.pending⟩], [], []⟩ "b" 3).2 = true →
        (queue_url ⟨[⟨"a", 1, Status.pending⟩], [], []⟩ "b" 3).1.queue =
          (⟨[⟨"a", 1, Status.pending⟩], [], []⟩ : DBState).queue ++
            [⟨"b", 3, Status.pending⟩]) ∧
      ((queue_url ⟨[⟨"a", 1, Status.pending⟩], [], []⟩ "b" 3).2 = false →
        (queue_url ⟨[⟨"a", 1, Status.pending⟩], [], []⟩ "b" 3).1 =
          ⟨[⟨"a", 1, Status.pending⟩], [], []⟩) ∧
      ((queue_url ⟨[⟨"a", 1, Status.pending⟩], [], []⟩ "b" 3).1.queue.countP
          (fun r => r.url == "b") = 1) ∧
      (queue_url (queue_url ⟨[⟨"a", 1, Status.pending⟩], [], []⟩ "b" 3).1 "b" 7).2 =
        false ∧
      (queue_url (queue_url ⟨[⟨"a", 1, Status.pending⟩], [], []⟩ "b" 3).1 "b" 7).1 =
        (queue_url ⟨[⟨"a", 1, Status.pending⟩], [], []⟩ "b" 3).1) :=
  ⟨by decide, C6_enqueue_idempotent ⟨[⟨"a", 1, Status.pending⟩], [], []⟩ "b" 3 7 (by decide)⟩

/-! ### C7 — reset of interrupted tasks -/

/-- C7: `reset_processing` turns every Processing row back into Pending
and returns exactly the number of rows so transitioned; Pending and Done
rows are untouched, every row keeps its url and depth, and the visited set
(and emails) are left unchanged; afterwards no Processing row remains. -/
theorem C7_reset_interrupted (db : DBState) :
    (reset_processing db).2 = processing_count db ∧
    (reset_processing db).1.visited = db.visited ∧
    (reset_processing db).1.emails = db.emails ∧
    (reset_processing db).1.queue.map Row.url = db.queue.map Row.url ∧
    (reset_processing db).1.queue.map Row.depth = db.queue.map Row.depth ∧
    (∀ r ∈ db.queue, r.status = Status.processing →
      (⟨r.url, r.depth, Status.pending⟩ : Row) ∈ (reset_processing db).1.queue) ∧
    (∀ r ∈ db.queue, r.status ≠ Status.processing → r ∈ (reset_processing db).1.queue) ∧
    (∀ r ∈ (reset_processing db).1.queue, r.status ≠ Status.processing) := by
  refine ⟨rfl, rfl, rfl, ?_, ?_, ?_, ?_, ?_⟩
  · show (db.queue.map _).map Row.url = db.queue.map Row.url
    rw [List.map_map]
    apply List.map_congr_left
    intro r _
    by_cases h : r.status = Status.processing <;> simp [h]
  · show (db.queue.map _).map Row.depth = db.queue.map Row.depth
    rw [List.map_map]
    apply List.map_congr_left
    intro r _
    by_cases h : r.status = Status.processing <;> simp [h]
  · intro r hmem hs
    show _ ∈ db.queue.map _
    have himg := List.mem_map_of_mem
      (fun r => if r.status = Status.processing then
        { r with status := Status.pending } else r) hmem
    simpa [hs] using himg
  · intro r hmem hs
    show _ ∈ db.queue.map _
    have himg := List.mem_map_of_mem
      (fun r => if r.status = Status.processing then
        { r with status := Status.pending } else r) hmem
    simpa [hs] using himg
  · intro r hmem
    simp only [reset_processing, List.mem_map] at hmem
    obtain ⟨r0, _, himg⟩ := hmem
    by_cases h : r0.status = Status.processing
    · rw [← himg]
      simp [h]
    · rw [← himg]
      simp [h]

theorem C7_reset_interrupted_witness :
    (reset_processing ⟨[⟨"a", 1, Status.processing⟩, ⟨"b", 2, Status.done⟩], ["a"], []⟩).2 =
      processing_count ⟨[⟨"a", 1, Status.processing⟩, ⟨"b", 2, Status.done⟩], ["a"], []⟩ ∧
    (⟨"a", 1, Status.pending⟩ : Row) ∈
      (reset_processing ⟨[⟨"a", 1, Status.processing⟩, ⟨"b", 2, Status.done⟩],
        ["a"], []⟩).1.queue ∧
    (reset_processing ⟨[⟨"a", 1, Status.processing⟩, ⟨"b", 2, Status.done⟩],
      ["a"], []⟩).1.visited = ["a"] := by
  have h := C7_reset_interrupted
    ⟨[⟨"a", 1, Status.processing⟩, ⟨"b", 2, Status.done⟩], ["a"], []⟩
  exact ⟨h.1, h.2.2.2.2.2.1 ⟨"a", 1, Status.processing⟩ (by decide) rfl, h.2.1⟩

/-! ### C8 — per-URL failures never abort the loop -/

theorem mark_visited_queue (db : DBState) (u : String) :
    (mark_visited db u).queue = db.queue := by
  unfold mark_visited
  by_cases h : u ∈ db.visited <;> simp [h]

theorem complete_url_done (db : DBState) (u : String) :
    ∀ r ∈ (complete_url db u).queue, r.url = u → r.status = Status.done := by
  intro r hmem hu
  simp only [complete_url, List.mem_map] at hmem
  obtain ⟨r0, _, himg⟩ := hmem
  by_cases h : r0.url = u
  · rw [← himg]
    simp [h]
  · exfalso
    rw [← himg] at hu
    simp [h] at hu

theorem process_url_of_failure {env : FetchEnv}
    (hfail : env.parseOk = false ∨ env.clientOk = false ∨ env.fetched = none)
    (db : DBState) (args : Args) (base_domain : String) (u : String) (d : Nat) :
    process_url db args base_domain u d env =
      if visited_or_err env db u then db else mark_visited db u := by
  unfold process_url
  by_cases hv : visited_or_err env db u = true
  · simp [hv]
  · simp only [Bool.not_eq_true] at hv
    rcases hfail with h | h | h
    · simp [hv, h]
    · by_cases hp : env.parseOk <;> simp [hv, hp, h]
    · by_cases hp : env.parseOk <;> by_cases hc : env.clientOk <;> simp [hv, hp, hc, h]

theorem process_url_queue_of_failure {env : FetchEnv}
    (hfail : env.parseOk = false ∨ env.clientOk = false ∨ env.fetched = none)
    (db : DBState) (args : Args) (base_domain : String) (u : String) (d : Nat) :
    (process_url db args base_domain u d env).queue = db.queue := by
  rw [process_url_of_failure hfail]
  by_cases hv : visited_or_err env db u = true
  · simp [hv]
  · simp only [Bool.not_eq_true] at hv
    simp [hv, mark_visited_queue]

theorem claimed_guard_complete_self {u : String} {db : DBState}
    (hmem : ∃ r ∈ db.queue, r.url = u) : claimed_guard u (complete_url db u) := by
  obtain ⟨r, hmem, hu⟩ := hmem
  refine ⟨{ r with status := Status.done }, ?_, hu, by simp⟩
  show _ ∈ db.queue.map _
  have himg := List.mem_map_of_mem
    (fun r => if r.url == u then { r with status := Status.done } else r) hmem
  simpa [hu] using himg

/-- C8: when the URL fails to parse, the HTTP client cannot be built, or
the fetch errors, the worker still marks the claimed task Done and returns
to polling (the loop neither aborts nor retries): every row for the URL
ends up Done, the worker's next phase is polling (not exited), no new task
is enqueued by the failed processing, and the consumed URL can never be
claimed again from the resulting state. -/
theorem C8_error_still_done (db : DBState) (args : Args) (base_domain : String)
    (env : FetchEnv) (u : String) (d : Nat) (ic : Nat)
    (hfail : env.parseOk = false ∨ env.clientOk = false ∨ env.fetched = none)
    (hnd : (db.queue.map Row.url).Nodup) (hmem : ∃ r ∈ db.queue, r.url = u) :
    (∀ r ∈ (step_work db args base_domain env u d).queue, r.url = u →
      r.status = Status.done) ∧
    (step_worker args base_domain env db ⟨ic, Phase.working u d⟩).2 =
      ⟨ic, Phase.polling⟩ ∧
    (step_work db args base_domain env u d).queue.map Row.url =
      db.queue.map Row.url ∧
    ∀ d2, (pop_url (step_work db args base_domain env u d)).2 ≠ some (u, d2) := by
  have hq : (step_work db args base_domain env u d).queue.map Row.url =
      db.queue.map Row.url := by
    unfold step_work
    rw [complete_url_map_url]
    rw [process_url_queue_of_failure hfail]
  refine ⟨?_, rfl, hq, ?_⟩
  · exact complete_url_done _ u
  · intro d2
    have hmem2 : ∃ r ∈ (process_url db args base_domain u d env).queue, r.url = u := by
      rw [process_url_queue_of_failure hfail]
      exact hmem
    have hg : claimed_guard u (step_work db args base_domain env u d) :=
      claimed_guard_complete_self hmem2
    exact pop_url_ne_of_guard hg (by rw [hq]; exact hnd) d2

theorem C8_error_still_done_witness :
    ((⟨fun _ => false, true, true, none, [], []⟩ : FetchEnv).parseOk = false ∨
      (⟨fun _ => false, true, true, none, [], []⟩ : FetchEnv).clientOk = false ∨
      (⟨fun _ => false, true, true, none, [], []⟩ : FetchEnv).fetched = none) ∧
    (∀ r ∈ (step_work ⟨[⟨"https://a.test/", 1, Status.processing⟩], [], []⟩
        ⟨"https://a.test/", 0, true⟩ "a.test"
        ⟨fun _ => false, true, true, none, [], []⟩ "https://a.test/" 1).queue,
      r.url = "https://a.test/" → r.status = Status.done) ∧
    (step_worker ⟨"https://a.test/", 0, true⟩ "a.test"
        ⟨fun _ => false, true, true, none, [], []⟩
        ⟨[⟨"https://a.test/", 1, Status.processing⟩], [], []⟩
        ⟨0, Phase.working "https://a.test/" 1⟩).2 = ⟨0, Phase.polling⟩ ∧
    (step_work ⟨[⟨"https://a.test/", 1, Status.processing⟩], [], []⟩
        ⟨"https://a.test/", 0, true⟩ "a.test"
        ⟨fun _ => false, true, true, none, [], []⟩ "https://a.test/" 1).queue.map
      Row.url = (⟨[⟨"https://a.test/", 1, Status.processing⟩], [], []⟩ :
        DBState).queue.map Row.url ∧
    ∀ d2, (pop_url (step_work ⟨[⟨"https://a.test/", 1, Status.processing⟩], [], []⟩
        ⟨"https://a.test/", 0, true⟩ "a.test"
        ⟨fun _ => false, true, true, none, [], []⟩ "https://a.test/" 1)).2 ≠
      some ("https://a.test/", d2) :=
  ⟨Or.inr (Or.inr rfl),
    C8_error_still_done ⟨[⟨"https://a.test/", 1, Status.processing⟩], [], []⟩
      ⟨"https://a.test/", 0, true⟩ "a.test"
      ⟨fun _ => false, true, true, none, [], []⟩ "https://a.test/" 1 0
      (Or.inr (Or.inr rfl)) (by decide)
      ⟨⟨"https://a.test/", 1, Status.processing⟩, by decide, rfl⟩⟩

/-! ### C9 — artifact dedup on (email, source_url) -/

/-- C9: `insert_email` deduplicates on the (email, source_url) pair:
inserting the same pair twice stores exactly one row and the second insert
reports not-new without changing anything, while the same email under two
different source URLs is stored twice, keeping both attributions. -/
theorem C9_email_dedup (db : DBState) (e s1 s2 : String)
    (h1 : (e, s1) ∉ db.emails) (h2 : (e, s2) ∉ db.emails) (hne : s1 ≠ s2) :
    (insert_email db e s1).2 = true ∧
    (insert_email db e s1).1.emails.countP (fun p => decide (p = (e, s1))) = 1 ∧
    (insert_email (insert_email db e s1).1 e s1).2 = false ∧
    (insert_email (insert_email db e s1).1 e s1).1 = (insert_email db e s1).1 ∧
    (insert_email (insert_email db e s1).1 e s2).2 = true ∧
    (e, s1) ∈ (insert_email (insert_email db e s1).1 e s2).1.emails ∧
    (e, s2) ∈ (insert_email (insert_email db e s1).1 e s2).1.emails := by
  have hi1 : insert_email db e s1 =
      ({ db with emails := db.emails ++ [(e, s1)] }, true) := by
    unfold insert_email
    rw [if_neg h1]
  have hfst1 : (insert_email db e s1).1 =
      ({ db with emails := db.emails ++ [(e, s1)] } : DBState) := by rw [hi1]
  have hmem1 : (e, s1) ∈ db.emails ++ [(e, s1)] :=
    List.mem_append_right _ (List.mem_singleton.mpr rfl)
  have hi2 : insert_email ({ db with emails := db.emails ++ [(e, s1)] } : DBState) e s1 =
      ({ db with emails := db.emails ++ [(e, s1)] }, false) := by
    unfold insert_email
    rw [if_pos hmem1]
  have hnotmem2 : (e, s2) ∉ db.emails ++ [(e, s1)] := by
    intro hmem
    rcases List.mem_append.mp hmem with h | h
    · exact h2 h
    · rw [List.mem_singleton] at h
      simp only [Prod.mk.injEq, true_and] at h
      exact hne h.symm
  have hi3 : insert_email ({ db with emails := db.emails ++ [(e, s1)] } : DBState) e s2 =
      ({ db with emails := (db.emails ++ [(e, s1)]) ++ [(e, s2)] }, true) := by
    unfold insert_email
    rw [if_neg hnotmem2]
  have hzero : db.emails.countP (fun p => decide (p = (e, s1))) = 0 := by
    rw [List.countP_eq_zero]
    intro a ha
    simp only [decide_eq_true_eq]
    intro heq
    exact h1 (heq ▸ ha)
  refine ⟨by rw [hi1], ?_, by rw [hfst1, hi2], by rw [hfst1, hi2],
    by rw [hfst1, hi3], ?_, ?_⟩
  · rw [hfst1]
    show (db.emails ++ [(e, s1)]).countP (fun p => decide (p = (e, s1))) = 1
    rw [List.countP_append, hzero]
    simp
  · rw [hfst1, hi3]
    show (e, s1) ∈ (db.emails ++ [(e, s1)]) ++ [(e, s2)]
    exact List.mem_append_left _ hmem1
  · rw [hfst1, hi3]
    show (e, s2) ∈ (db.emails ++ [(e, s1)]) ++ [(e, s2)]
    exact List.mem_append_right _ (List.mem_singleton.mpr rfl)

theorem C9_email_dedup_witness :
    (((("x@a.test", "https://a.test/") ∉ ([] : List (String × String))) ∧
      (("x@a.test", "https://b.test/") ∉ ([] : List (String × String))) ∧
      ("https://a.test/" : String) ≠ "https://b.test/") ∧
    ((insert_email ⟨[], [], []⟩ "x@a.test" "https://a.test/").2 = true ∧
      (insert_email ⟨[], [], []⟩ "x@a.test" "https://a.test/").1.emails.countP
        (fun p => decide (p = ("x@a.test", "https://a.test/"))) = 1 ∧
      (insert_email (insert_email ⟨[], [], []⟩ "x@a.test" "https://a.test/").1
        "x@a.test" "https://a.test/").2 = false ∧
      (insert_email (insert_email ⟨[], [], []⟩ "x@a.test" "https://a.test/").1
        "x@a.test" "https://a.test/").1 =
        (insert_email ⟨[], [], []⟩ "x@a.test" "https://a.test/").1 ∧
      (insert_email (insert_email ⟨[], [], []⟩ "x@a.test" "https://a.test/").1
        "x@a.test" "https://b.test/").2 = true ∧
      ("x@a.test", "https://a.test/") ∈
        (insert_email (insert_email ⟨[], [], []⟩ "x@a.test" "https://a.test/").1
          "x@a.test" "https://b.test/").1.emails ∧
      ("x@a.test", "https://b.test/") ∈
        (insert_email (insert_email ⟨[], [], []⟩ "x@a.test" "https://a.test/").1
          "x@a.test" "https://b.test/").1.emails)) :=
  ⟨⟨by decide, by decide, by decide⟩,
    C9_email_dedup ⟨[], [], []⟩ "x@a.test" "https://a.test/" "https://b.test/"
      (by decide) (by decide) (by decide)⟩

/-! ### C10 — erring visited checks fail closed -/

/-- C10: a SQLite error from `is_visited` is consumed through
`unwrap_or(true)` and therefore reads as "already visited": a claimed task
whose check errors is skipped entirely (no mark, no fetch, no extraction,
no artifact write — the database is returned unchanged), yet the worker
loop still marks it Done afterwards; and a discovered link whose check
errors is never enqueued. -/
theorem C10_visited_error_fails_closed (db : DBState) (args : Args)
    (base_domain : String) (env : FetchEnv) (u : String) (d : Nat) (l : UrlT)
    (herr : env.visitedErr u = true) (hlerr : env.visitedErr l.full = true) :
    process_url db args base_domain u d env = db ∧
    step_work db args base_domain env u d = complete_url db u ∧
    (∀ r ∈ (step_work db args base_domain env u d).queue, r.url = u →
      r.status = Status.done) ∧
    queue_link db args base_domain d env l = db := by
  have hv : visited_or_err env db u = true := by
    unfold visited_or_err
    simp [herr]
  have hp : process_url db args base_domain u d env = db := by
    unfold process_url
    simp [hv]
  refine ⟨hp, ?_, ?_, ?_⟩
  · unfold step_work
    rw [hp]
  · unfold step_work
    rw [hp]
    exact complete_url_done db u
  · unfold queue_link
    by_cases hg : (args.stay_on_domain && !is_same_domain l base_domain) = true
    · rw [if_pos hg]
    · rw [if_neg hg]
      have hlv : visited_or_err env db l.full = true := by
        unfold visited_or_err
        simp [hlerr]
      simp [hlv]

theorem C10_visited_error_fails_closed_witness :
    (((⟨fun _ => true, true, true, some "", ["x@a.test"],
        [⟨"https://a.test/p2", some "a.test"⟩]⟩ : FetchEnv).visitedErr
        "https://a.test/" = true) ∧
      ((⟨fun _ => true, true, true, some "", ["x@a.test"],
        [⟨"https://a.test/p2", some "a.test"⟩]⟩ : FetchEnv).visitedErr
        "https://a.test/p2" = true)) ∧
    (process_url ⟨[⟨"https://a.test/", 1, Status.processing⟩], [], []⟩
        ⟨"https://a.test/", 0, true⟩ "a.test" "https://a.test/" 1
        ⟨fun _ => true, true, true, some "", ["x@a.test"],
          [⟨"https://a.test/p2", some "a.test"⟩]⟩ =
      ⟨[⟨"https://a.test/", 1, Status.processing⟩], [], []⟩ ∧
    step_work ⟨[⟨"https://a.test/", 1, Status.processing⟩], [], []⟩
        ⟨"https://a.test/", 0, true⟩ "a.test"
        ⟨fun _ => true, true, true, some "", ["x@a.test"],
          [⟨"https://a.test/p2", some "a.test"⟩]⟩ "https://a.test/" 1 =
      complete_url ⟨[⟨"https://a.test/", 1, Status.processing⟩], [], []⟩
        "https://a.test/" ∧
    (∀ r ∈ (step_work ⟨[⟨"https://a.test/", 1, Status.processing⟩], [], []⟩
        ⟨"https://a.test/", 0, true⟩ "a.test"
        ⟨fun _ => true, true, true, some "", ["x@a.test"],
          [⟨"https://a.test/p2", some "a.test"⟩]⟩ "https://a.test/" 1).queue,
      r.url = "https://a.test/" → r.status = Status.done) ∧
    queue_link ⟨[⟨"https://a.test/", 1, Status.processing⟩], [], []⟩
        ⟨"https://a.test/", 0, true⟩ "a.test" 1
        ⟨fun _ => true, true, true, some "", ["x@a.test"],
          [⟨"https://a.test/p2", some "a.test"⟩]⟩
        ⟨"https://a.test/p2", some "a.test"⟩ =
      ⟨[⟨"https://a.test/", 1, Status.processing⟩], [], []⟩) :=
  ⟨⟨rfl, rfl⟩,
    C10_visited_error_fails_closed ⟨[⟨"https://a.test/", 1, Status.processing⟩], [], []⟩
      ⟨"https://a.test/", 0, true⟩ "a.test"
      ⟨fun _ => true, true, true, some "", ["x@a.test"],
        [⟨"https://a.test/p2", some "a.test"⟩]⟩ "https://a.test/" 1
      ⟨"https://a.test/p2", some "a.test"⟩ rfl rfl⟩
